import Mathlib

/-!
Verification development for the Facebook comment-crawling repository
(`src/facebook_crawling.py`).  The Python source is shallowly embedded:
pure text processing becomes functions on `List Char`, fallible code
returns `Option`/`Except`, the browser/DOM is abstracted as oracles
(a crawl function `String → Option PostData`, a height-reading function
`Nat → Int` for the scroll loop, and lists of DOM elements with a
visibility flag and a text).

Modelling conventions, stated once here:
* Python `str.lower()` is modelled as ASCII lowering (`Char.toLower`);
  the inputs of interest (digits, `k`/`m` unit markers, URL characters)
  are ASCII, where the two agree.
* Python `str.strip()` removes leading/trailing whitespace; we use
  `Char.isWhitespace` (space, tab, CR, LF) for the whitespace class.
* Python `float(...)` parses sign / digits / one decimal point /
  optional exponent; it is modelled with exact rational arithmetic,
  represented as an unnormalized numerator/denominator pair
  `Int × Nat` (denominator always a positive power of ten).  The
  special forms `inf`/`nan`/embedded underscores are modelled as parse
  failure; on those forms the Python pipeline also fails (`int()` of
  `inf`/`nan` raises), so success/failure agrees.
* Python `int(...)` applied to a float truncates toward zero; this is
  `pyInt` below, truncating division (`Int.tdiv`) of the numerator by
  the denominator.
* A raised Python exception is `none` (for `Option`-valued functions)
  or `.error msg` (for `Except`-valued functions).
* The regex `\d` / `\w` character classes are modelled as ASCII digits
  and ASCII alphanumerics-or-underscore respectively.
-/

/-! ### Basic Python text primitives -/

/-- Python `str.lower()` (ASCII model). -/
def pyLower (cs : List Char) : List Char := cs.map Char.toLower

/-- Python `str.replace(",", "")`: remove every comma. -/
def removeCommas (cs : List Char) : List Char := cs.filter (fun c => c != ',')

/-- Python `str.strip()`: drop leading and trailing whitespace. -/
def pyStrip (cs : List Char) : List Char :=
  ((cs.dropWhile Char.isWhitespace).reverse.dropWhile Char.isWhitespace).reverse

/-- Value of a digit string read in base 10 (the denotation of a run of
decimal digits, and the model of Python `int(digit_string)`). -/
def digitsVal (cs : List Char) : Nat := cs.foldl (fun a c => 10 * a + (c.toNat - 48)) 0

/-! ### Python `float(...)` literal parsing, with exact rationals -/

/-- Digits of a float exponent: nonempty, all decimal digits. -/
def pfExpDigits (cs : List Char) : Option Int :=
  if cs ≠ [] ∧ cs.all Char.isDigit then some ((digitsVal cs : Int)) else none

/-- Optionally signed exponent digits. -/
def pfExpSigned : List Char → Option Int
  | '+' :: r => pfExpDigits r
  | '-' :: r => (pfExpDigits r).map (fun e => -e)
  | r => pfExpDigits r

/-- The tail of a float literal after the mantissa: empty, or an
`e`/`E` exponent part which must reach the end of the string. -/
def pfExp : List Char → Option Int
  | [] => some 0
  | 'e' :: r => pfExpSigned r
  | 'E' :: r => pfExpSigned r
  | _ => none

/-- Scale a numerator/denominator pair by `10 ^ e`. -/
def applyExp (e : Int) (num : Int) (den : Nat) : Int × Nat :=
  match e with
  | .ofNat n => (num * ((10 ^ n : Nat) : Int), den)
  | .negSucc n => (num, den * 10 ^ (n + 1))

/-- Unsigned float literal: integer digits, optional `.` and fraction
digits (at least one digit overall), optional exponent.  The result is
an exact numerator/denominator pair, denominator a positive power of
ten. -/
def pfUnsigned (cs : List Char) : Option (Int × Nat) :=
  let ip := cs.takeWhile Char.isDigit
  let rest := cs.dropWhile Char.isDigit
  match rest with
  | '.' :: r2 =>
    let fp := r2.takeWhile Char.isDigit
    let r3 := r2.dropWhile Char.isDigit
    if ip = [] ∧ fp = [] then none
    else
      (pfExp r3).map (fun e =>
        applyExp e ((digitsVal ip * 10 ^ fp.length + digitsVal fp : Nat) : Int)
          (10 ^ fp.length))
  | r2 =>
    if ip = [] then none
    else (pfExp r2).map (fun e => applyExp e ((digitsVal ip : Nat) : Int) 1)

/-- Signed float literal body. -/
def pfSigned (cs : List Char) : Option (Int × Nat) :=
  match cs with
  | '+' :: r => pfUnsigned r
  | '-' :: r => (pfUnsigned r).map (fun p => (-p.1, p.2))
  | r => pfUnsigned r

/-- Python `float(s)`: strips surrounding whitespace, then parses an
optionally signed decimal literal; failure is `none` (`ValueError`). -/
def parseFloat (cs : List Char) : Option (Int × Nat) := pfSigned (pyStrip cs)

/-- Python `int(x)` on a float value `num / den`: truncation toward
zero. -/
def pyInt (num : Int) (den : Nat) : Int := num.tdiv (den : Int)

/-! ### The Number Normalizer (`parse_facebook_number`, lines 36-42) -/

/-- First contiguous run of decimal digits, i.e. Python
`re.findall(r"\d+", s)[0]`; `none` when the list would be empty
(Python `IndexError`). -/
def firstDigitRun (cs : List Char) : Option (List Char) :=
  match cs.dropWhile (fun c => !c.isDigit) with
  | [] => none
  | d :: rest => some (d :: rest.takeWhile Char.isDigit)

/-- The normalization prefix of `parse_facebook_number`:
`num_str.lower().replace(",", "").strip()`. -/
def normalizeFB (cs : List Char) : List Char := pyStrip (removeCommas (pyLower cs))

/-- Core of `parse_facebook_number` on character lists (source lines
36-42): after normalizing, a string containing `k` is parsed as a float
(with all `k` removed) times 1000 truncated; likewise `m` and 1000000;
otherwise the first digit run is taken.  `none` models a raised
`ValueError`/`IndexError`/`OverflowError`. -/
def parseFB (cs : List Char) : Option Int :=
  let t := normalizeFB cs
  if 'k' ∈ t then
    (parseFloat (t.filter (fun c => c != 'k'))).map (fun p => pyInt (p.1 * 1000) p.2)
  else if 'm' ∈ t then
    (parseFloat (t.filter (fun c => c != 'm'))).map (fun p => pyInt (p.1 * 1000000) p.2)
  else (firstDigitRun t).map (fun ds => ((digitsVal ds : Nat) : Int))

/-- `parse_facebook_number` on strings. -/
def parse_facebook_number (s : String) : Option Int := parseFB s.data

/-- Normalization in the order the specification words it: lowercase
and strip, then remove the comma thousands separators. -/
def specNormalize (cs : List Char) : List Char := removeCommas (pyStrip (pyLower cs))

/-- The Number Normalizer as the specification describes it
("lowercases and strips the string, removes comma thousands
separators, and then" branches on the `k`/`m` unit markers).  Compared
with `parseFB`, which follows the source's operation order, in the C1
refinement theorem. -/
def parse_spec (cs : List Char) : Option Int :=
  let t := specNormalize cs
  if 'k' ∈ t then
    (parseFloat (t.filter (fun c => c != 'k'))).map (fun p => pyInt (p.1 * 1000) p.2)
  else if 'm' ∈ t then
    (parseFloat (t.filter (fun c => c != 'm'))).map (fun p => pyInt (p.1 * 1000000) p.2)
  else (firstDigitRun t).map (fun ds => ((digitsVal ds : Nat) : Int))

/-- Decimal rendering of a natural number (most significant digit
first), used to state idempotence of parsing on rendered results. -/
def digitChar : Nat → Char
  | 0 => '0'
  | 1 => '1'
  | 2 => '2'
  | 3 => '3'
  | 4 => '4'
  | 5 => '5'
  | 6 => '6'
  | 7 => '7'
  | 8 => '8'
  | 9 => '9'
  | _ => '0'

/-- Decimal rendering of a natural number. -/
def natRender (n : Nat) : List Char :=
  if _h : n < 10 then [digitChar n]
  else natRender (n / 10) ++ [digitChar (n % 10)]
decreasing_by exact Nat.div_lt_self (by omega) (by omega)

/-! ### URL validation (`check_post_links`, lines 257-269) -/

/-- The regex `\w` class (ASCII model): letters, digits, underscore. -/
def isWordChar (c : Char) : Bool := c.isAlphanum || c = '_'

/-- Consume an exact literal from the front of a character list. -/
def dropLit : List Char → List Char → Option (List Char)
  | [], cs => some cs
  | _ :: _, [] => none
  | l :: ls, c :: cs => if c = l then dropLit ls cs else none

/-- Consume the optional `s` of `https?`. -/
def dropOptS : List Char → List Char
  | 's' :: r => r
  | r => r

def httpLit : List Char := ("http").data

def schemeTailLit : List Char := ("://").data

def hostLit : List Char := ("www.facebook.com/").data

def postsLit : List Char := ("/posts/").data

/-- Truthiness of
`re.match(r"https?://www\.facebook\.com/[^/]+/posts/[\w\d]+", link)`
(line 266).  `re.match` anchors at the start only; `[^/]+` must be
followed by the literal `/posts/`, so it necessarily consumes the whole
maximal slash-free run; the trailing `[\w\d]+` only requires one word
character, after which anything may follow. -/
def isPostLink (cs : List Char) : Bool :=
  match dropLit httpLit cs with
  | none => false
  | some r1 =>
    match dropLit schemeTailLit (dropOptS r1) with
    | none => false
    | some r2 =>
      match dropLit hostLit r2 with
      | none => false
      | some r3 =>
        let seg := r3.takeWhile (fun c => c != '/')
        let r4 := r3.dropWhile (fun c => c != '/')
        if seg = [] then false
        else
          match dropLit postsLit r4 with
          | none => false
          | some r5 =>
            match r5 with
            | [] => false
            | c :: _ => isWordChar c

def emptyLinksMsg : String :=
  "Bạn chưa nhập đường dẫn nào. Vui lòng nhập ít nhất 1 liên kết bài viết."

def invalidLinkMsg (link : String) : String := "Liên kết không hợp lệ: " ++ link

/-- The per-link loop of `check_post_links`: raise `ValueError` on the
first link failing the regex. -/
def checkEach : List String → Except String Bool
  | [] => Except.ok true
  | l :: ls => if isPostLink l.data then checkEach ls else Except.error (invalidLinkMsg l)

/-- `check_post_links` (lines 257-269).  `none`/empty input models a
falsy `post_links` argument; `.error` models a raised `ValueError`. -/
def check_post_links (post_links : Option (List String)) : Except String Bool :=
  match post_links with
  | none => Except.error emptyLinksMsg
  | some [] => Except.error emptyLinksMsg
  | some links => checkEach links

/-! ### The Batch Runner (`run_facebook_crawling`, lines 272-337)

The per-URL crawl (`crawl_facebook_post`) drives a real browser; it is
abstracted as an oracle `crawl : String → Option PostData`, where
`none` models the `RuntimeError` (`CrawlFailure`) it raises on
navigation/extraction failure and `some` models the result dictionary
it returns. -/

/-- The result dictionary of `crawl_facebook_post` (lines 239-247);
`comments` keeps the `comments_text` field of each comment dict. -/
structure PostData where
  author : String
  content : String
  reactions_count : Int
  comments_count : Int
  shares_count : Int
  comments : List String
deriving DecidableEq

/-- One row of the `posts_summary` collection (lines 305-315). -/
structure SummaryRow where
  url : String
  author : String
  content : String
  reactions_count : Int
  comments_count : Int
  shares_count : Int
  total_comments_crawled : Nat
deriving DecidableEq

/-- One row of the `all_comments` collection (lines 317-327). -/
structure CommentRow where
  url : String
  comment_text : String
deriving DecidableEq

def mkSummaryRow (url : String) (d : PostData) : SummaryRow :=
  ⟨url, d.author, d.content, d.reactions_count, d.comments_count, d.shares_count,
    d.comments.length⟩

/-- Comment rows appended for one successfully crawled URL (lines
317-327): one row per comment when the list is nonempty, otherwise a
single placeholder row with empty text. -/
def commentRowsFor (url : String) (d : PostData) : List CommentRow :=
  if d.comments ≠ [] then d.comments.map (fun t => ⟨url, t⟩)
  else [⟨url, ""⟩]

/-- The `for i, url in enumerate(post_links, 1)` loop (lines 298-333).
Returns the summary rows, the comment rows, and the list of
`on_progress` invocations `(i, total)` in call order.  A failing crawl
(`none`) hits the `continue` on line 303, skipping the row appends and
the `on_progress` call of that iteration. -/
def runAux (crawl : String → Option PostData) (total : Nat) :
    Nat → List String → List SummaryRow × List CommentRow × List (Nat × Nat)
  | _, [] => ([], [], [])
  | i, url :: rest =>
    match crawl url with
    | none => runAux crawl total (i + 1) rest
    | some d =>
      let r := runAux crawl total (i + 1) rest
      (mkSummaryRow url d :: r.1, commentRowsFor url d ++ r.2.1, (i, total) :: r.2.2)

/-- `run_facebook_crawling` (lines 272-337): validate, then iterate.
The progress-callback argument is replaced by returning the list of
invocations the runner performs. -/
def run_facebook_crawling (crawl : String → Option PostData)
    (post_links : Option (List String)) :
    Except String (List SummaryRow × List CommentRow × List (Nat × Nat)) :=
  match check_post_links post_links with
  | Except.error e => Except.error e
  | Except.ok _ =>
    let links := post_links.getD []
    Except.ok (runAux crawl links.length 1 links)

/-- Python `enumerate(xs, i)`. -/
def pyEnumerate (i : Nat) : List α → List (Nat × α)
  | [] => []
  | a :: as => (i, a) :: pyEnumerate (i + 1) as

/-- Closed form of the summary rows the loop accumulates. -/
def summariesOf (crawl : String → Option PostData) (links : List String) :
    List SummaryRow :=
  links.filterMap (fun u => (crawl u).map (mkSummaryRow u))

/-- Closed form of the comment rows the loop accumulates. -/
def commentsOf (crawl : String → Option PostData) (links : List String) :
    List CommentRow :=
  (links.map (fun u =>
    match crawl u with
    | none => []
    | some d => commentRowsFor u d)).flatten

/-- Closed form of the progress-callback invocations: one `(i, total)`
per successfully crawled URL, `i` its 1-based position. -/
def progressOf (crawl : String → Option PostData) (total : Nat) (i : Nat)
    (links : List String) : List (Nat × Nat) :=
  (pyEnumerate i links).filterMap
    (fun p => if (crawl p.2).isSome then some (p.1, total) else none)

/-! ### The Comment Loader's scroll loop (`extract_comments`, lines 163-190)

The DOM is abstracted as a height oracle `h : Nat → Int`: `h t` is the
value returned by the `t`-th `scrollHeight` evaluation.  `h 0` is the
initial `previous_height` reading (line 169); each loop iteration reads
once after the 1500-px scroll, and once more after the 2500-px nudge
when the first reading was unchanged. -/

/-- Observable outcome of the scroll loop: number of completed loop
iterations, the sequence of scroll amounts issued (1500 or 2500, in
order), and — when the loop exited via `break` — the `previous_height`
value and the oracle index of the post-scroll reading of the exiting
iteration (`none` when the 1000-iteration cap ran out). -/
structure ScrollResult where
  iterations : Nat
  events : List Nat
  exit : Option (Int × Nat)
deriving DecidableEq

/-- One pass of the `for _ in range(fuel)` loop of lines 171-188. -/
def scrollLoopAux (h : Nat → Int) (prev : Int) (idx : Nat) : Nat → ScrollResult
  | 0 => ⟨0, [], none⟩
  | fuel + 1 =>
    let cur := h idx
    if cur = prev then
      let cur2 := h (idx + 1)
      if cur2 = prev then ⟨1, [1500, 2500], some (prev, idx)⟩
      else
        let r := scrollLoopAux h cur2 (idx + 2) fuel
        ⟨r.iterations + 1, 1500 :: 2500 :: r.events, r.exit⟩
    else
      let r := scrollLoopAux h cur (idx + 1) fuel
      ⟨r.iterations + 1, 1500 :: r.events, r.exit⟩

/-- The scroll loop of `extract_comments`: initial reading, then at
most 1000 iterations. -/
def extract_comments_scroll (h : Nat → Int) : ScrollResult :=
  scrollLoopAux h (h 0) 1 1000

/-! ### The Shares metric of `extract_engagement_metrics` (lines 79-95)

The candidate span elements are abstracted as a list of elements with a
visibility flag and a text. -/

structure ShareElem where
  visible : Bool
  text : String
deriving DecidableEq

/-- The `[\d,.]` character class. -/
def classChar (c : Char) : Bool := c.isDigit || c = ',' || c = '.'

/-- Strip an exact literal from the end of a character list. -/
def dropTail (cs lit : List Char) : Option (List Char) :=
  if lit.isSuffixOf cs then some (cs.take (cs.length - lit.length)) else none

def sharesLits : List (List Char) :=
  [("shares").data, ("chia sẻ").data, ("lượt chia sẻ").data]

/-- One alternative of
`re.search(r"\d[\d,.]*\s+(shares|chia sẻ|lượt chia sẻ)$", text)`:
the text ends with the literal, preceded by at least one whitespace
character, preceded by a `[\d,.]` run containing its leading digit. -/
def sharesValidOne (cs lit : List Char) : Bool :=
  match dropTail cs lit with
  | none => false
  | some r =>
    match r.reverse with
    | [] => false
    | c :: _ =>
      c.isWhitespace &&
        ((r.reverse.dropWhile Char.isWhitespace).takeWhile classChar).any Char.isDigit

/-- Truthiness of the full shares-label suffix regex (line 86). -/
def sharesValid (cs : List Char) : Bool := sharesLits.any (fun lit => sharesValidOne cs lit)

/-- First match of `re.search(r"\d[\d,.]*[kKmM]?", text)` (lines 63 and
87): from the first digit, the maximal `[\d,.]` run, plus one following
`k`/`K`/`m`/`M` when present. -/
def findNumberToken (cs : List Char) : Option (List Char) :=
  match cs.dropWhile (fun c => !c.isDigit) with
  | [] => none
  | d :: rest =>
    let body := rest.takeWhile classChar
    let rest2 := rest.dropWhile classChar
    match rest2 with
    | c :: _ =>
      if c = 'k' ∨ c = 'K' ∨ c = 'm' ∨ c = 'M' then some (d :: (body ++ [c]))
      else some (d :: body)
    | [] => some (d :: body)

/-- The normalized share count one loop element yields (lines 84-90):
`some v` exactly when the element is visible, its stripped lowered text
passes the suffix validation, a number token is found, and
`parse_facebook_number` succeeds on it; any failure (`none`) makes the
loop `continue`. -/
def shareValue (e : ShareElem) : Option Int :=
  if e.visible then
    let t := pyLower (pyStrip e.text.data)
    if sharesValid t then
      match findNumberToken t with
      | some tok => parseFB tok
      | none => none
    else none
  else none

/-- The shares loop of lines 82-93: starts from 0, takes
`max(current, value)` on an accepted element and then `break`s. -/
def extract_shares_count : List ShareElem → Int
  | [] => 0
  | e :: rest =>
    match shareValue e with
    | some v => max 0 v
    | none => extract_shares_count rest

/-- Modelled from the spec: "scan all matching elements (not just the
first) ... keeping the maximum across matches" — the maximum of the
accepted values over the whole element list, 0 when none.  The source's
loop instead `break`s after the first accepted element (line 91); the
two are compared in the C6 counterexample. -/
def sharesMaxSpec (els : List ShareElem) : Int :=
  (els.filterMap shareValue).foldl (fun a v => max a v) 0

/-! ### Concrete fixtures used by counterexamples and witnesses -/

/-- The fixed prefix `https://www.facebook.com/` as characters. -/
def httpsBase : List Char := ("https://www.facebook.com/").data

/-- The fixed prefix `http://www.facebook.com/` as characters. -/
def httpBase : List Char := ("http://www.facebook.com/").data

def goodURL1 : String := "https://www.facebook.com/u/posts/1"

def goodURL2 : String := "https://www.facebook.com/u/posts/2"

def goodURL3 : String := "https://www.facebook.com/u/posts/3"

def specGoodURL : String := "https://www.facebook.com/someuser/posts/1234abc"

def specBadURL : String := "https://www.facebook.com/someuser/photos/1234"

def queryURL : String := "https://www.facebook.com/someuser/posts/1234?comment_id=99"

def postDataA : PostData := ⟨"alice", "hello", 10, 3, 2, ["nice", "wow"]⟩

def postDataB : PostData := ⟨"bob", "post", 1, 0, 0, []⟩

/-- Crawl oracle: `goodURL1` and `goodURL3` succeed, everything else
raises `CrawlFailure`. -/
def crawlAB : String → Option PostData :=
  fun u => if u = goodURL1 then some postDataA else if u = goodURL3 then some postDataB else none

/-- The batch result for `crawlAB` on `[goodURL1, goodURL2]`. -/
def resultAB : List SummaryRow × List CommentRow × List (Nat × Nat) :=
  ([mkSummaryRow goodURL1 postDataA],
    [⟨goodURL1, "nice"⟩, ⟨goodURL1, "wow"⟩], [(1, 2)])

/-- The batch result for `crawlAB` on `[goodURL1, goodURL2, goodURL3]`. -/
def resultABC : List SummaryRow × List CommentRow × List (Nat × Nat) :=
  ([mkSummaryRow goodURL1 postDataA, mkSummaryRow goodURL3 postDataB],
    [⟨goodURL1, "nice"⟩, ⟨goodURL1, "wow"⟩, ⟨goodURL3, ""⟩], [(1, 3), (3, 3)])

/-- The batch result for `crawlAB` on `[goodURL1, goodURL3]`. -/
def resultAC : List SummaryRow × List CommentRow × List (Nat × Nat) :=
  ([mkSummaryRow goodURL1 postDataA, mkSummaryRow goodURL3 postDataB],
    [⟨goodURL1, "nice"⟩, ⟨goodURL1, "wow"⟩, ⟨goodURL3, ""⟩], [(1, 2), (2, 2)])

example : parse_facebook_number ("1,234") = some 1234 := by decide
example : parse_facebook_number ("1.2k") = some 1200 := by decide
example : parse_facebook_number ("3M") = some 3000000 := by decide
example : parse_facebook_number ("k") = none := by decide
example : parse_facebook_number (" 12  likes") = none := by decide
example : parse_facebook_number (" 12  votes") = some 12 := by decide
example : parse_facebook_number ("-1k") = some (-1000) := by decide
example : parse_facebook_number ("2.5K") = some 2500 := by decide
example : parse_facebook_number ("1.5e1k") = some 15000 := by decide

example : isPostLink specGoodURL.data = true := by decide
example : isPostLink specBadURL.data = false := by decide
example : isPostLink queryURL.data = true := by decide
example : isPostLink ("http://www.facebook.com/a/posts/x").data = true := by decide
example : isPostLink ("https://www.facebook.com//posts/1").data = false := by decide
example : check_post_links (some [goodURL1, goodURL2]) = Except.ok true := rfl
example :
    run_facebook_crawling crawlAB (some [goodURL1, goodURL2]) =
      Except.ok ([mkSummaryRow goodURL1 postDataA],
        [⟨goodURL1, "nice"⟩, ⟨goodURL1, "wow"⟩], [(1, 2)]) := rfl
example :
    extract_shares_count [⟨true, "2 shares"⟩, ⟨true, "5 shares"⟩] = 2 := by decide
example :
    sharesMaxSpec [⟨true, "2 shares"⟩, ⟨true, "5 shares"⟩] = 5 := by decide
example : extract_shares_count [⟨true, "12 chia sẻ"⟩] = 12 := by decide
example : extract_shares_count [⟨false, "2 shares"⟩, ⟨true, "7 likes"⟩] = 0 := by decide
example : extract_shares_count [⟨true, "1.2k shares"⟩] = 0 := by decide
example : extract_shares_count [⟨true, "1,234 shares"⟩] = 1234 := by decide
example : extract_shares_count [⟨true, "3  lượt chia sẻ"⟩] = 3 := by decide
example : extract_comments_scroll (fun _ => 5) = ⟨1, [1500, 2500], some (5, 1)⟩ := rfl

/-! ## Helper lemmas -/

section Helpers

variable {α : Type _}

theorem dropWhile_append_all {p : α → Bool} {a l : List α}
    (h : ∀ c ∈ a, p c = true) : (a ++ l).dropWhile p = l.dropWhile p := by
  induction a with
  | nil => rfl
  | cons c a ih =>
    simp only [List.cons_append, List.dropWhile_cons_of_pos (h c (by simp))]
    exact ih (fun d hd => h d (by simp [hd]))

theorem dropWhile_all {p : α → Bool} {l : List α}
    (h : ∀ c ∈ l, p c = true) : l.dropWhile p = [] :=
  List.dropWhile_eq_nil_iff.mpr h

theorem takeWhile_all {p : α → Bool} {l : List α}
    (h : ∀ c ∈ l, p c = true) : l.takeWhile p = l :=
  List.takeWhile_eq_self_iff.mpr h

theorem dropWhile_eq_self_all_neg {p : α → Bool} {l : List α}
    (h : ∀ c ∈ l, p c = false) : l.dropWhile p = l := by
  cases l with
  | nil => rfl
  | cons c l => exact List.dropWhile_cons_of_neg (by simp [h c (by simp)])

theorem takeWhile_append_head_neg {p : α → Bool} {l₁ l₂ : List α} {c : α}
    (h1 : ∀ a ∈ l₁, p a = true) (h2 : p c = false) :
    (l₁ ++ c :: l₂).takeWhile p = l₁ := by
  induction l₁ with
  | nil =>
    simp only [List.nil_append]
    exact List.takeWhile_cons_of_neg (by simp [h2])
  | cons d l ih =>
    simp only [List.cons_append, List.takeWhile_cons_of_pos (h1 d (by simp))]
    rw [ih (fun a ha => h1 a (by simp [ha]))]

theorem dropWhile_append_head_neg {p : α → Bool} {l₁ l₂ : List α} {c : α}
    (h1 : ∀ a ∈ l₁, p a = true) (h2 : p c = false) :
    (l₁ ++ c :: l₂).dropWhile p = c :: l₂ := by
  induction l₁ with
  | nil =>
    simp only [List.nil_append]
    exact List.dropWhile_cons_of_neg (by simp [h2])
  | cons d l ih =>
    simp only [List.cons_append, List.dropWhile_cons_of_pos (h1 d (by simp))]
    exact ih (fun a ha => h1 a (by simp [ha]))

theorem ws_char_cases {c : Char} (h : c.isWhitespace = true) :
    c = ' ' ∨ c = '\t' ∨ c = '\r' ∨ c = '\n' := by
  simpa [Char.isWhitespace, or_assoc] using h

theorem ws_char_facts {c : Char} (h : c.isWhitespace = true) :
    c ≠ ',' ∧ c.isDigit = false ∧ c ≠ 'k' ∧ c ≠ 'm' := by
  rcases ws_char_cases h with h | h | h | h <;> subst h <;> exact ⟨by decide, by decide, by decide, by decide⟩

theorem pyStrip_ws_left {a x : List Char} (h : ∀ c ∈ a, c.isWhitespace = true) :
    pyStrip (a ++ x) = pyStrip x := by
  unfold pyStrip
  rw [dropWhile_append_all h]

theorem pyStrip_ws_right {b x : List Char} (h : ∀ c ∈ b, c.isWhitespace = true) :
    pyStrip (x ++ b) = pyStrip x := by
  unfold pyStrip
  rw [List.dropWhile_append]
  by_cases hx : x.dropWhile Char.isWhitespace = []
  · simp [hx, dropWhile_all h]
  · have hcond : (x.dropWhile Char.isWhitespace).isEmpty = false := by
      cases hdw : x.dropWhile Char.isWhitespace with
      | nil => exact absurd hdw hx
      | cons a l => rfl
    rw [hcond]
    simp only [Bool.false_eq_true, if_false]
    rw [List.reverse_append, dropWhile_append_all (fun c hc => h c (List.mem_reverse.mp hc))]

theorem pyStrip_decomp (cs : List Char) :
    ∃ a b, (∀ c ∈ a, c.isWhitespace = true) ∧ (∀ c ∈ b, c.isWhitespace = true) ∧
      cs = a ++ pyStrip cs ++ b := by
  refine ⟨cs.takeWhile Char.isWhitespace,
    ((cs.dropWhile Char.isWhitespace).reverse.takeWhile Char.isWhitespace).reverse,
    fun c hc => List.mem_takeWhile_imp hc,
    fun c hc => List.mem_takeWhile_imp (List.mem_reverse.mp hc), ?_⟩
  have h2 : (cs.dropWhile Char.isWhitespace).reverse =
      (cs.dropWhile Char.isWhitespace).reverse.takeWhile Char.isWhitespace ++
        (cs.dropWhile Char.isWhitespace).reverse.dropWhile Char.isWhitespace :=
    (List.takeWhile_append_dropWhile ..).symm
  have h3 : cs.dropWhile Char.isWhitespace =
      ((cs.dropWhile Char.isWhitespace).reverse.dropWhile Char.isWhitespace).reverse ++
        ((cs.dropWhile Char.isWhitespace).reverse.takeWhile Char.isWhitespace).reverse := by
    rw [← List.reverse_append, ← h2, List.reverse_reverse]
  conv_lhs => rw [← List.takeWhile_append_dropWhile Char.isWhitespace cs]
  rw [h3]
  simp [pyStrip, List.append_assoc]

theorem mem_ws_pad {a b y : List Char} {c : Char} (hc : c.isWhitespace = false)
    (ha : ∀ d ∈ a, d.isWhitespace = true) (hb : ∀ d ∈ b, d.isWhitespace = true) :
    c ∈ a ++ y ++ b ↔ c ∈ y := by
  simp only [List.mem_append]
  constructor
  · rintro ((h | h) | h)
    · exact absurd (ha c h) (by simp [hc])
    · exact h
    · exact absurd (hb c h) (by simp [hc])
  · intro h
    exact Or.inl (Or.inr h)

theorem dropLit_append (lit r : List Char) : dropLit lit (lit ++ r) = some r := by
  induction lit with
  | nil => rfl
  | cons c l ih => simp [dropLit, ih]

end Helpers

/-! ## The scroll loop (claim C2) -/

theorem scrollLoopAux_iterations_le :
    ∀ (fuel : Nat) (h : Nat → Int) (prev : Int) (idx : Nat),
      (scrollLoopAux h prev idx fuel).iterations ≤ fuel := by
  intro fuel
  induction fuel with
  | zero => intro h prev idx; simp [scrollLoopAux]
  | succ n ih =>
    intro h prev idx
    simp only [scrollLoopAux]
    by_cases h1 : h idx = prev
    · by_cases h2 : h (idx + 1) = prev
      · simp [h1, h2]
      · have := ih h (h (idx + 1)) (idx + 2)
        simp [h1, h2]
        omega
    · have := ih h (h idx) (idx + 1)
      simp [h1]
      omega

theorem scrollLoopAux_exit_sound :
    ∀ (fuel : Nat) (h : Nat → Int) (prev : Int) (idx : Nat) (p : Int) (i : Nat),
      (scrollLoopAux h prev idx fuel).exit = some (p, i) → h i = p ∧ h (i + 1) = p := by
  intro fuel
  induction fuel with
  | zero => intro h prev idx p i hex; simp [scrollLoopAux] at hex
  | succ n ih =>
    intro h prev idx p i hex
    simp only [scrollLoopAux] at hex
    by_cases h1 : h idx = prev
    · by_cases h2 : h (idx + 1) = prev
      · simp [h1, h2] at hex
        obtain ⟨hp, hi⟩ := hex
        subst hp
        subst hi
        exact ⟨h1, h2⟩
      · simp [h1, h2] at hex
        exact ih h (h (idx + 1)) (idx + 2) p i hex
    · simp [h1] at hex
      exact ih h (h idx) (idx + 1) p i hex

theorem scrollLoopAux_exit_none :
    ∀ (fuel : Nat) (h : Nat → Int) (prev : Int) (idx : Nat),
      (scrollLoopAux h prev idx fuel).exit = none →
      (scrollLoopAux h prev idx fuel).iterations = fuel := by
  intro fuel
  induction fuel with
  | zero => intro h prev idx _; simp [scrollLoopAux]
  | succ n ih =>
    intro h prev idx hex
    simp only [scrollLoopAux] at hex ⊢
    by_cases h1 : h idx = prev
    · by_cases h2 : h (idx + 1) = prev
      · simp [h1, h2] at hex
      · simp [h1, h2] at hex ⊢
        have := ih h (h (idx + 1)) (idx + 2) hex
        omega
    · simp [h1] at hex ⊢
      have := ih h (h idx) (idx + 1) hex
      omega

theorem scrollLoopAux_const (c : Int) (idx : Nat) :
    ∀ fuel : Nat, 0 < fuel →
      scrollLoopAux (fun _ => c) c idx fuel = ⟨1, [1500, 2500], some (c, idx)⟩ := by
  intro fuel hf
  cases fuel with
  | zero => omega
  | succ n => simp [scrollLoopAux]

/-- C2: the scroll loop of the Comment Loader terminates for every
sequence of container-height readings: it executes at most 1000
iterations; on a constant height oracle it finishes after the first
iteration having issued exactly one 1500-px scroll and one 2500-px
nudge; a `break` exit happens only when both the post-scroll and the
post-nudge readings equal the previous height; an iteration whose two
readings both equal the previous height does `break`; and a run that
does not `break` used all 1000 iterations. -/
theorem extract_comments_scroll_spec :
    (∀ h : Nat → Int, (extract_comments_scroll h).iterations ≤ 1000) ∧
    (∀ c : Int, extract_comments_scroll (fun _ => c) = ⟨1, [1500, 2500], some (c, 1)⟩) ∧
    (∀ (h : Nat → Int) (p : Int) (i : Nat),
      (extract_comments_scroll h).exit = some (p, i) → h i = p ∧ h (i + 1) = p) ∧
    (∀ h : Nat → Int, (extract_comments_scroll h).exit = none →
      (extract_comments_scroll h).iterations = 1000) ∧
    (∀ (h : Nat → Int) (prev : Int) (idx fuel : Nat), 0 < fuel →
      h idx = prev → h (idx + 1) = prev →
      (scrollLoopAux h prev idx fuel).exit = some (prev, idx)) := by
  refine ⟨fun h => scrollLoopAux_iterations_le 1000 h (h 0) 1,
    fun c => scrollLoopAux_const c 1 1000 (by omega),
    fun h p i hex => scrollLoopAux_exit_sound 1000 h (h 0) 1 p i hex,
    fun h hex => scrollLoopAux_exit_none 1000 h (h 0) 1 hex,
    fun h prev idx fuel hf h1 h2 => ?_⟩
  cases fuel with
  | zero => omega
  | succ n => simp [scrollLoopAux, h1, h2]

/-- Witness for C2, at the constant height oracle 7. -/
theorem extract_comments_scroll_spec_witness :
    extract_comments_scroll (fun _ => (7 : Int)) = ⟨1, [1500, 2500], some (7, 1)⟩ ∧
    ((fun _ : Nat => (7 : Int)) 1 = 7 ∧ (fun _ : Nat => (7 : Int)) (1 + 1) = 7) ∧
    (scrollLoopAux (fun _ => (7 : Int)) 7 5 3).exit = some (7, 5) := by
  refine ⟨extract_comments_scroll_spec.2.1 7, ?_,
    extract_comments_scroll_spec.2.2.2.2 (fun _ => 7) 7 5 3 (by omega) rfl rfl⟩
  exact extract_comments_scroll_spec.2.2.1 (fun _ => 7) 7 1
    (by rw [extract_comments_scroll_spec.2.1 7])

/-! ## The Batch Runner loop (claims C3, C4, C7) -/

theorem runAux_eq (crawl : String → Option PostData) (total : Nat) :
    ∀ (links : List String) (i : Nat),
      runAux crawl total i links =
        (summariesOf crawl links, commentsOf crawl links, progressOf crawl total i links) := by
  intro links
  induction links with
  | nil => intro i; rfl
  | cons u rest ih =>
    intro i
    cases hc : crawl u with
    | none =>
      simp only [runAux, hc]
      rw [ih (i + 1)]
      simp [summariesOf, commentsOf, progressOf, pyEnumerate, hc]
    | some d =>
      simp only [runAux, hc]
      rw [ih (i + 1)]
      simp [summariesOf, commentsOf, progressOf, pyEnumerate, hc]

theorem run_ok {crawl : String → Option PostData} {links : List String}
    {r : List SummaryRow × List CommentRow × List (Nat × Nat)}
    (h : run_facebook_crawling crawl (some links) = Except.ok r) :
    r = (summariesOf crawl links, commentsOf crawl links,
      progressOf crawl links.length 1 links) := by
  unfold run_facebook_crawling at h
  cases hcp : check_post_links (some links) with
  | error e => rw [hcp] at h; simp at h
  | ok b =>
    rw [hcp] at h
    simp only [Option.getD] at h
    rw [runAux_eq] at h
    exact (Except.ok.injEq .. ▸ congrArg id h) ▸ rfl

/-- C4: a URL whose crawl raises `CrawlFailure` is caught by the Batch
Runner: the batch on `pre ++ [u] ++ post` with `u` failing produces
exactly the summary rows and comment rows of the batch on
`pre ++ post`; the failing URL contributes no row and the rows of the
other URLs are unaffected, so iteration continues past the failure. -/
theorem crawl_failure_skipped :
    ∀ (crawl : String → Option PostData) (pre post : List String) (u : String)
      (r r' : List SummaryRow × List CommentRow × List (Nat × Nat)),
      crawl u = none →
      run_facebook_crawling crawl (some (pre ++ u :: post)) = Except.ok r →
      run_facebook_crawling crawl (some (pre ++ post)) = Except.ok r' →
      r.1 = r'.1 ∧ r.2.1 = r'.2.1 := by
  intro crawl pre post u r r' hu hr hr'
  have e1 := run_ok hr
  have e2 := run_ok hr'
  subst e1
  subst e2
  constructor
  · show summariesOf crawl (pre ++ u :: post) = summariesOf crawl (pre ++ post)
    simp [summariesOf, hu]
  · show commentsOf crawl (pre ++ u :: post) = commentsOf crawl (pre ++ post)
    simp [commentsOf, hu]

/-- Witness for C4: `goodURL2` fails under `crawlAB` inside
`[goodURL1, goodURL2, goodURL3]`, and the summary and comment rows
coincide with the run on `[goodURL1, goodURL3]`. -/
theorem crawl_failure_skipped_witness :
    resultABC.1 = resultAC.1 ∧ resultABC.2.1 = resultAC.2.1 :=
  crawl_failure_skipped crawlAB [goodURL1] [goodURL3] goodURL2 resultABC resultAC
    rfl rfl rfl

/-- C7: for a successfully crawled URL `u` with result `d`, the Batch
Runner emits, in the comment-row collection and at u's position in the
batch, exactly one row `⟨u, ""⟩` when `d` has no comments, and exactly
one row per comment of `d` in order (with no placeholder) when it has
any. -/
theorem empty_comments_placeholder :
    ∀ (crawl : String → Option PostData) (pre post : List String) (u : String)
      (d : PostData) (r : List SummaryRow × List CommentRow × List (Nat × Nat)),
      crawl u = some d →
      run_facebook_crawling crawl (some (pre ++ u :: post)) = Except.ok r →
      (d.comments = [] →
        r.2.1 = commentsOf crawl pre ++ [⟨u, ""⟩] ++ commentsOf crawl post) ∧
      (d.comments ≠ [] →
        r.2.1 = commentsOf crawl pre ++ d.comments.map (fun t => (⟨u, t⟩ : CommentRow)) ++
          commentsOf crawl post) := by
  intro crawl pre post u d r hu hr
  have e := run_ok hr
  subst e
  constructor
  · intro hc
    show commentsOf crawl (pre ++ u :: post) = _
    simp [commentsOf, hu, commentRowsFor, hc]
  · intro hc
    show commentsOf crawl (pre ++ u :: post) = _
    simp [commentsOf, hu, commentRowsFor, hc]

/-- Witness for C7: `goodURL3` crawls successfully with zero comments
in `[goodURL1, goodURL3]` and yields exactly the placeholder row. -/
theorem empty_comments_placeholder_witness :
    resultAC.2.1 = commentsOf crawlAB [goodURL1] ++ [⟨goodURL3, ""⟩] ++
      commentsOf crawlAB [] :=
  (empty_comments_placeholder crawlAB [goodURL1] [] goodURL3 postDataB resultAC
    rfl rfl).1 rfl

/-- C3 counterexample: on the batch `[goodURL1, goodURL2]` where the
first URL succeeds and the second fails, the runner invokes the
progress callback only once, with `(1, 2)` — not twice with `(1, 2)`
then `(2, 2)` as the claim states, because the `continue` on line 303
skips the `on_progress` call for a failing URL. -/
theorem progress_counterexample :
    run_facebook_crawling crawlAB (some [goodURL1, goodURL2]) = Except.ok resultAB ∧
    resultAB.2.2 ≠ [(1, 2), (2, 2)] :=
  ⟨rfl, by decide⟩

/-- C3 amended: the progress callback is invoked once per successfully
crawled URL, with arguments (1-based position in the batch, total URL
count); a URL whose crawl fails triggers no invocation.  In particular
on a two-URL batch whose first URL succeeds and whose second fails it
is invoked exactly once, with `(1, 2)`. -/
theorem progress_per_successful_url :
    ∀ (crawl : String → Option PostData) (links : List String)
      (r : List SummaryRow × List CommentRow × List (Nat × Nat)),
      run_facebook_crawling crawl (some links) = Except.ok r →
      r.2.2 = progressOf crawl links.length 1 links := by
  intro crawl links r hr
  have e := run_ok hr
  subst e
  rfl

/-- Witness for C3 (amended), on the success-then-failure batch. -/
theorem progress_per_successful_url_witness :
    resultAB.2.2 = progressOf crawlAB ([goodURL1, goodURL2].length) 1
      [goodURL1, goodURL2] :=
  progress_per_successful_url crawlAB [goodURL1, goodURL2] resultAB rfl

/-! ## URL validation (claims C5, C10) -/

theorem checkEach_error_of_bad :
    ∀ (links : List String) (l : String), l ∈ links → isPostLink l.data = false →
      ∃ m, checkEach links = Except.error m := by
  intro links
  induction links with
  | nil => intro l hl; simp at hl
  | cons x xs ih =>
    intro l hl hbad
    by_cases hx : isPostLink x.data = true
    · rcases List.mem_cons.mp hl with rfl | hmem
      · rw [hx] at hbad
        cases hbad
      · obtain ⟨m, hm⟩ := ih l hmem hbad
        exact ⟨m, by simp [checkEach, hx, hm]⟩
    · exact ⟨invalidLinkMsg x, by simp [checkEach, hx]⟩

theorem checkEach_ok :
    ∀ links : List String, (∀ l ∈ links, isPostLink l.data = true) →
      checkEach links = Except.ok true := by
  intro links
  induction links with
  | nil => intro _; rfl
  | cons x xs ih =>
    intro hall
    simp [checkEach, hall x (by simp)]
    exact ih (fun l hl => hall l (by simp [hl]))

/-- C5: `check_post_links` raises `ValueError` on an absent or empty
URL list and on any list containing a URL failing the post-URL regex;
when the list is nonempty and every URL matches, it returns `True`.
Validation happens before any crawling: when it fails, the outcome of
the Batch Runner does not depend on the crawl behaviour at all.  The
spec's positive and negative example URLs behave as stated. -/
theorem check_post_links_spec :
    check_post_links none = Except.error emptyLinksMsg ∧
    check_post_links (some []) = Except.error emptyLinksMsg ∧
    (∀ (links : List String) (l : String), l ∈ links → isPostLink l.data = false →
      ∃ m, check_post_links (some links) = Except.error m) ∧
    (∀ links : List String, links ≠ [] → (∀ l ∈ links, isPostLink l.data = true) →
      check_post_links (some links) = Except.ok true) ∧
    (∀ (c₁ c₂ : String → Option PostData) (pl : Option (List String)) (m : String),
      check_post_links pl = Except.error m →
      run_facebook_crawling c₁ pl = run_facebook_crawling c₂ pl) ∧
    isPostLink specGoodURL.data = true ∧ isPostLink specBadURL.data = false := by
  refine ⟨rfl, rfl, ?_, ?_, ?_, by decide, by decide⟩
  · intro links l hl hbad
    cases links with
    | nil => simp at hl
    | cons x xs =>
      obtain ⟨m, hm⟩ := checkEach_error_of_bad (x :: xs) l hl hbad
      exact ⟨m, by simpa [check_post_links] using hm⟩
  · intro links hne hall
    cases links with
    | nil => exact absurd rfl hne
    | cons x xs => simpa [check_post_links] using checkEach_ok (x :: xs) hall
  · intro c₁ c₂ pl m hm
    unfold run_facebook_crawling
    rw [hm]

/-- Witness for C5: a bad URL makes validation fail, a good one makes
it pass, and with validation failing the runner ignores the crawl
oracle. -/
theorem check_post_links_spec_witness :
    (∃ m, check_post_links (some [specBadURL]) = Except.error m) ∧
    check_post_links (some [goodURL1]) = Except.ok true ∧
    run_facebook_crawling crawlAB none = run_facebook_crawling (fun _ => none) none :=
  ⟨check_post_links_spec.2.2.1 [specBadURL] specBadURL (by simp) (by decide),
    check_post_links_spec.2.2.2.1 [goodURL1] (by simp) (by decide),
    check_post_links_spec.2.2.2.2.1 crawlAB (fun _ => none) none emptyLinksMsg rfl⟩

theorem seg_bne_slash {seg : List Char} (hs : '/' ∉ seg) :
    ∀ a ∈ seg, (a != '/') = true := by
  intro a ha
  have : a ≠ '/' := fun e => hs (e ▸ ha)
  simpa using this

theorem isPostLink_host_tail {seg pid rest : List Char}
    (hseg : seg ≠ []) (hs : '/' ∉ seg) (hpid : pid ≠ [])
    (hw : ∀ c ∈ pid, isWordChar c = true) :
    isPostLink (httpsBase ++ (seg ++ postsLit ++ pid ++ rest)) = true ∧
    isPostLink (httpBase ++ (seg ++ postsLit ++ pid ++ rest)) = true := by
  cases pid with
  | nil => exact absurd rfl hpid
  | cons c pid' =>
    have hbody : ∀ pfx : List Char,
        seg ++ postsLit ++ (c :: pid') ++ rest =
          seg ++ ('/' :: (("posts/").data ++ (c :: (pid' ++ rest)))) := by
      intro _
      rw [show postsLit = '/' :: ("posts/").data from rfl]
      simp [List.append_assoc]
    have hslash : (('/' : Char) != '/') = false := by decide
    constructor
    · rw [show httpsBase ++ (seg ++ postsLit ++ (c :: pid') ++ rest) =
          httpLit ++ ('s' :: (schemeTailLit ++ (hostLit ++
            (seg ++ postsLit ++ (c :: pid') ++ rest)))) from by
        rw [show httpsBase = httpLit ++ ('s' :: (schemeTailLit ++ hostLit)) from rfl]
        simp [List.append_assoc]]
      rw [hbody []]
      simp only [isPostLink, dropLit_append, dropOptS]
      rw [takeWhile_append_head_neg (seg_bne_slash hs) hslash,
        dropWhile_append_head_neg (seg_bne_slash hs) hslash]
      rw [if_neg hseg]
      rw [show ('/' :: (("posts/").data ++ (c :: (pid' ++ rest)))) =
          postsLit ++ (c :: (pid' ++ rest)) from rfl]
      simp only [dropLit_append]
      exact hw c (by simp)
    · rw [show httpBase ++ (seg ++ postsLit ++ (c :: pid') ++ rest) =
          httpLit ++ (schemeTailLit ++ (hostLit ++
            (seg ++ ('/' :: (("posts/").data ++ (c :: (pid' ++ rest))))))) from by
        rw [show httpBase = httpLit ++ (schemeTailLit ++ hostLit) from rfl,
          show postsLit = '/' :: ("posts/").data from rfl]
        simp [List.append_assoc]]
      simp only [isPostLink, dropLit_append]
      rw [show dropOptS (schemeTailLit ++ (hostLit ++
            (seg ++ ('/' :: (("posts/").data ++ (c :: (pid' ++ rest))))))) =
          schemeTailLit ++ (hostLit ++
            (seg ++ ('/' :: (("posts/").data ++ (c :: (pid' ++ rest)))))) from rfl]
      simp only [dropLit_append]
      rw [takeWhile_append_head_neg (seg_bne_slash hs) hslash,
        dropWhile_append_head_neg (seg_bne_slash hs) hslash]
      rw [if_neg hseg]
      rw [show ('/' :: (("posts/").data ++ (c :: (pid' ++ rest)))) =
          postsLit ++ (c :: (pid' ++ rest)) from rfl]
      simp only [dropLit_append]
      exact hw c (by simp)

/-- C10: the URL-shape check is anchored only at the start of the
string: every string whose prefix is
`http(s)://www.facebook.com/<segment>/posts/<word-char id>` passes
validation regardless of the suffix that follows — in particular a URL
carrying a query string after the post id passes `check_post_links` and
is handed to the crawl loop. -/
theorem url_check_prefix_only :
    (∀ seg pid rest : List Char, seg ≠ [] → '/' ∉ seg → pid ≠ [] →
      (∀ c ∈ pid, isWordChar c = true) →
      isPostLink (httpsBase ++ (seg ++ postsLit ++ pid ++ rest)) = true ∧
      isPostLink (httpBase ++ (seg ++ postsLit ++ pid ++ rest)) = true) ∧
    check_post_links (some [queryURL]) = Except.ok true ∧
    (∀ crawl : String → Option PostData, ∃ r,
      run_facebook_crawling crawl (some [queryURL]) = Except.ok r) := by
  refine ⟨fun seg pid rest h1 h2 h3 h4 => isPostLink_host_tail h1 h2 h3 h4, rfl, ?_⟩
  intro crawl
  exact ⟨runAux crawl 1 1 [queryURL], rfl⟩

/-- Witness for C10: a concrete URL with a query-string suffix after
the post id passes the shape check under both schemes. -/
theorem url_check_prefix_only_witness :
    isPostLink (httpsBase ++ ((['u'] : List Char) ++ postsLit ++ ['1'] ++ ("?id=2").data)) =
      true ∧
    isPostLink (httpBase ++ ((['u'] : List Char) ++ postsLit ++ ['1'] ++ ("?id=2").data)) =
      true :=
  url_check_prefix_only.1 ['u'] ['1'] (("?id=2").data) (by decide) (by decide)
    (by decide) (by decide)

/-! ## The Shares metric (claim C6) -/

/-- C6 counterexample: two visible, validated share labels `2 shares`
then `5 shares` — the source's loop `break`s after the first accepted
element (line 91) and reports 2, not the maximum 5 that the claim's
"maximum over all accepted elements" (`sharesMaxSpec`) requires. -/
theorem shares_max_counterexample :
    extract_shares_count [⟨true, "2 shares"⟩, ⟨true, "5 shares"⟩] ≠
      sharesMaxSpec [⟨true, "2 shares"⟩, ⟨true, "5 shares"⟩] := by decide

/-- C6 amended: the Shares extractor scans elements in order, accepts
an element only if it is visible and its full text validates against
the localized shares-label suffix pattern with a parsable number token,
and returns the normalized value of the *first* accepted element
(clamped below by the initial 0), or 0 when no element is accepted —
not the maximum over all accepted elements. -/
theorem shares_first_accepted :
    ∀ els : List ShareElem,
      extract_shares_count els =
        ((els.findSome? shareValue).map (fun v => max 0 v)).getD 0 := by
  intro els
  induction els with
  | nil => rfl
  | cons e rest ih =>
    cases h : shareValue e with
    | none => simp [extract_shares_count, h, ih, List.findSome?_cons]
    | some v => simp [extract_shares_count, h, List.findSome?_cons]

/-! ## Number Normalizer totality (claim C8) -/

/-- C8 counterexample: the input `"k"` contains a unit marker, yet
`parse_facebook_number` fails on it (Python: `float("")` raises
`ValueError`), contradicting "returns a non-negative integer for every
string that contains a digit run or a unit marker". -/
theorem parse_marker_counterexample :
    ('k' ∈ normalizeFB (("k").data)) ∧ parse_facebook_number ("k") = none :=
  ⟨by decide, by decide⟩

/-- C8 amended: `parse_facebook_number` either returns an integer or
fails; it fails when the normalized string has no unit marker and no
digit run; with no unit marker and a digit run it returns a
non-negative integer; with a unit marker present it succeeds exactly
when the string with the marker removed parses as a float literal (and
the result can then be negative for signed inputs). -/
theorem parse_total_amended :
    ∀ s : String,
      (('k' ∉ normalizeFB s.data) → ('m' ∉ normalizeFB s.data) →
        firstDigitRun (normalizeFB s.data) = none → parse_facebook_number s = none) ∧
      (('k' ∉ normalizeFB s.data) → ('m' ∉ normalizeFB s.data) →
        ∀ ds, firstDigitRun (normalizeFB s.data) = some ds →
          ∃ n : Nat, parse_facebook_number s = some ((n : Nat) : Int)) ∧
      ('k' ∈ normalizeFB s.data →
        ((parse_facebook_number s).isSome ↔
          (parseFloat ((normalizeFB s.data).filter (fun c => c != 'k'))).isSome)) ∧
      (('k' ∉ normalizeFB s.data) → 'm' ∈ normalizeFB s.data →
        ((parse_facebook_number s).isSome ↔
          (parseFloat ((normalizeFB s.data).filter (fun c => c != 'm'))).isSome)) := by
  intro s
  refine ⟨?_, ?_, ?_, ?_⟩
  · intro hk hm hf
    simp [parse_facebook_number, parseFB, hk, hm, hf]
  · intro hk hm ds hf
    exact ⟨digitsVal ds, by simp [parse_facebook_number, parseFB, hk, hm, hf]⟩
  · intro hk
    simp [parse_facebook_number, parseFB, hk]
  · intro hk hm
    simp [parse_facebook_number, parseFB, hk, hm]

/-- Witness for C8 (amended): a digit-free, marker-free input fails; an
input with a digit run and no marker returns a non-negative integer. -/
theorem parse_total_amended_witness :
    parse_facebook_number ("no digits here") = none ∧
    (∃ n : Nat, parse_facebook_number ("abc12xy") = some ((n : Nat) : Int)) :=
  ⟨(parse_total_amended ("no digits here")).1 (by decide) (by decide) (by decide),
    (parse_total_amended ("abc12xy")).2.1 (by decide) (by decide) (['1', '2'])
      (by decide)⟩

/-! ## Idempotence on digit strings (claim C9) -/

theorem digit_bounds {c : Char} (h : c.isDigit = true) :
    48 ≤ c.toNat ∧ c.toNat ≤ 57 := by
  simp [Char.isDigit] at h
  exact h

theorem digit_toLower {c : Char} (h : c.isDigit = true) : c.toLower = c := by
  obtain ⟨_, h2⟩ := digit_bounds h
  simp only [Char.toLower]
  rw [if_neg]
  intro hcond
  obtain ⟨h3, _⟩ := hcond
  omega

theorem digit_char_facts {c : Char} (h : c.isDigit = true) :
    c.toLower = c ∧ (c != ',') = true ∧ c.isWhitespace = false ∧ c ≠ 'k' ∧ c ≠ 'm' := by
  refine ⟨digit_toLower h, ?_, ?_, fun e => ?_, fun e => ?_⟩
  · simp only [bne_iff_ne, ne_eq]
    intro e
    rw [e] at h
    exact absurd h (by decide)
  · cases hb : c.isWhitespace with
    | false => rfl
    | true =>
      rcases ws_char_cases hb with e | e | e | e <;>
        (rw [e] at h; exact absurd h (by decide))
  · rw [e] at h
    exact absurd h (by decide)
  · rw [e] at h
    exact absurd h (by decide)

theorem pyLower_digits {cs : List Char} (h : ∀ c ∈ cs, c.isDigit = true) :
    pyLower cs = cs := by
  unfold pyLower
  have e : cs.map Char.toLower = cs.map id :=
    List.map_congr_left (fun c hc => digit_toLower (h c hc))
  simpa using e

theorem removeCommas_digits {cs : List Char} (h : ∀ c ∈ cs, c.isDigit = true) :
    removeCommas cs = cs :=
  List.filter_eq_self.mpr (fun c hc => (digit_char_facts (h c hc)).2.1)

theorem pyStrip_no_ws {cs : List Char} (h : ∀ c ∈ cs, c.isWhitespace = false) :
    pyStrip cs = cs := by
  unfold pyStrip
  rw [dropWhile_eq_self_all_neg h,
    dropWhile_eq_self_all_neg (fun c hc => h c (List.mem_reverse.mp hc)),
    List.reverse_reverse]

theorem firstDigitRun_all {cs : List Char} (hne : cs ≠ [])
    (h : ∀ c ∈ cs, c.isDigit = true) : firstDigitRun cs = some cs := by
  cases cs with
  | nil => exact absurd rfl hne
  | cons c rest =>
    have hall : ∀ d ∈ c :: rest, (!d.isDigit) = false := by
      intro d hd
      simp [h d hd]
    unfold firstDigitRun
    rw [dropWhile_eq_self_all_neg hall]
    have ht : rest.takeWhile Char.isDigit = rest :=
      takeWhile_all (fun d hd => h d (List.mem_cons_of_mem c hd))
    simp [ht]

theorem digitChar_isDigit (d : Nat) : (digitChar d).isDigit = true := by
  unfold digitChar
  split <;> decide

theorem digitChar_val {d : Nat} (h : d < 10) : (digitChar d).toNat - 48 = d := by
  interval_cases d <;> decide

theorem natRender_ne_nil (n : Nat) : natRender n ≠ [] := by
  rw [natRender]
  split <;> simp

theorem natRender_digits (n : Nat) : ∀ c ∈ natRender n, c.isDigit = true := by
  induction n using Nat.strong_induction_on with
  | _ n ih =>
    rw [natRender]
    split
    · intro c hc
      simp at hc
      subst hc
      exact digitChar_isDigit n
    · rename_i hge
      intro c hc
      rw [List.mem_append] at hc
      rcases hc with hc | hc
      · exact ih (n / 10) (Nat.div_lt_self (by omega) (by omega)) c hc
      · simp at hc
        subst hc
        exact digitChar_isDigit (n % 10)

theorem digitsVal_append_last (xs : List Char) (c : Char) :
    digitsVal (xs ++ [c]) = 10 * digitsVal xs + (c.toNat - 48) := by
  simp [digitsVal, List.foldl_append]

theorem digitsVal_natRender : ∀ n : Nat, digitsVal (natRender n) = n := by
  intro n
  induction n using Nat.strong_induction_on with
  | _ n ih =>
    rw [natRender]
    split
    · rename_i h
      have : digitsVal [digitChar n] = (digitChar n).toNat - 48 := by
        simp [digitsVal]
      rw [this, digitChar_val h]
    · rename_i h
      rw [digitsVal_append_last, ih (n / 10) (Nat.div_lt_self (by omega) (by omega)),
        digitChar_val (Nat.mod_lt n (by omega))]
      omega

/-- C9: the Number Normalizer is idempotent on already-normalized
decimal strings: every nonempty all-digit input parses to exactly the
base-10 value it denotes, and parsing the decimal rendering of any
natural number returns that number. -/
theorem parse_digits_idempotent :
    (∀ s : String, s.data ≠ [] → (∀ c ∈ s.data, c.isDigit = true) →
      parse_facebook_number s = some ((digitsVal s.data : Nat) : Int)) ∧
    (∀ n : Nat, parseFB (natRender n) = some ((n : Nat) : Int)) := by
  have main : ∀ cs : List Char, cs ≠ [] → (∀ c ∈ cs, c.isDigit = true) →
      parseFB cs = some ((digitsVal cs : Nat) : Int) := by
    intro cs hne h
    have hnorm : normalizeFB cs = cs := by
      unfold normalizeFB
      rw [pyLower_digits h, removeCommas_digits h,
        pyStrip_no_ws (fun c hc => (digit_char_facts (h c hc)).2.2.1)]
    have hk : 'k' ∉ cs := fun hc => (digit_char_facts (h 'k' hc)).2.2.2.1 rfl
    have hm : 'm' ∉ cs := fun hc => (digit_char_facts (h 'm' hc)).2.2.2.2 rfl
    simp only [parseFB, hnorm]
    rw [if_neg hk, if_neg hm, firstDigitRun_all hne h]
    rfl
  refine ⟨fun s h1 h2 => main s.data h1 h2, fun n => ?_⟩
  rw [main (natRender n) (natRender_ne_nil n) (natRender_digits n),
    digitsVal_natRender n]

/-- Witness for C9, on the all-digit input `"42"` and the rendering of
1200. -/
theorem parse_digits_idempotent_witness :
    parse_facebook_number ("42") = some ((digitsVal (("42").data) : Nat) : Int) ∧
    parseFB (natRender 1200) = some ((1200 : Nat) : Int) :=
  ⟨parse_digits_idempotent.1 ("42") (by decide) (by decide),
    parse_digits_idempotent.2 1200⟩

/-! ## The C1 refinement: the spec's operation order agrees with the
source's -/

theorem firstDigitRun_cons_skip {c : Char} {z : List Char} (hc : (!c.isDigit) = true) :
    firstDigitRun (c :: z) = firstDigitRun z := by
  unfold firstDigitRun
  simp only [List.dropWhile_cons, hc, if_true]

theorem firstDigitRun_ws_prefix {a z : List Char}
    (ha : ∀ c ∈ a, c.isWhitespace = true) :
    firstDigitRun (a ++ z) = firstDigitRun z := by
  unfold firstDigitRun
  rw [dropWhile_append_all (fun c hc => by simp [(ws_char_facts (ha c hc)).2.1])]

theorem takeWhile_digit_ws_suffix {b : List Char}
    (hb : ∀ c ∈ b, c.isWhitespace = true) :
    ∀ y : List Char, (y ++ b).takeWhile Char.isDigit = y.takeWhile Char.isDigit := by
  intro y
  induction y with
  | nil =>
    simp only [List.nil_append, List.takeWhile_nil]
    cases b with
    | nil => rfl
    | cons c bs =>
      exact List.takeWhile_cons_of_neg
        (by simp [(ws_char_facts (hb c (by simp))).2.1])
  | cons c y ih =>
    by_cases hc : c.isDigit
    · simp [List.takeWhile_cons_of_pos hc, ih]
    · simp [List.takeWhile_cons_of_neg hc]

theorem firstDigitRun_ws_suffix {b : List Char}
    (hb : ∀ c ∈ b, c.isWhitespace = true) :
    ∀ y : List Char, firstDigitRun (y ++ b) = firstDigitRun y := by
  intro y
  induction y with
  | nil =>
    simp only [List.nil_append]
    unfold firstDigitRun
    rw [dropWhile_all (fun c hc => by simp [(ws_char_facts (hb c hc)).2.1])]
    rfl
  | cons c y ih =>
    by_cases hc : c.isDigit
    · have h1 : firstDigitRun (c :: (y ++ b)) =
          some (c :: (y ++ b).takeWhile Char.isDigit) := by
        unfold firstDigitRun
        simp [List.dropWhile_cons, hc]
      have h2 : firstDigitRun (c :: y) = some (c :: y.takeWhile Char.isDigit) := by
        unfold firstDigitRun
        simp [List.dropWhile_cons, hc]
      rw [show ((c :: y) ++ b) = c :: (y ++ b) from rfl, h1, h2,
        takeWhile_digit_ws_suffix hb y]
    · rw [show ((c :: y) ++ b) = c :: (y ++ b) from rfl,
        firstDigitRun_cons_skip (by simp [hc]),
        firstDigitRun_cons_skip (by simp [hc]), ih]

theorem firstDigitRun_ws_pad {a b y : List Char}
    (ha : ∀ c ∈ a, c.isWhitespace = true) (hb : ∀ c ∈ b, c.isWhitespace = true) :
    firstDigitRun (a ++ y ++ b) = firstDigitRun y := by
  rw [List.append_assoc, firstDigitRun_ws_prefix ha, firstDigitRun_ws_suffix hb]

theorem parseFB_eq_parse_spec : ∀ cs : List Char, parseFB cs = parse_spec cs := by
  intro cs
  obtain ⟨a, b, ha, hb, hdec⟩ := pyStrip_decomp (pyLower cs)
  have hfa : a.filter (fun c => c != ',') = a :=
    List.filter_eq_self.mpr (fun c hc => by simpa using (ws_char_facts (ha c hc)).1)
  have hfb : b.filter (fun c => c != ',') = b :=
    List.filter_eq_self.mpr (fun c hc => by simpa using (ws_char_facts (hb c hc)).1)
  have hrc : removeCommas (pyLower cs) = a ++ specNormalize cs ++ b := by
    rw [show removeCommas (pyLower cs) = (pyLower cs).filter (fun c => c != ',') from rfl,
      hdec]
    show ((a ++ pyStrip (pyLower cs) ++ b).filter _) =
      a ++ removeCommas (pyStrip (pyLower cs)) ++ b
    rw [show removeCommas (pyStrip (pyLower cs)) =
        (pyStrip (pyLower cs)).filter (fun c => c != ',') from rfl]
    rw [List.filter_append, List.filter_append, hfa, hfb]
  have htc : normalizeFB cs = pyStrip (specNormalize cs) := by
    unfold normalizeFB
    rw [hrc, pyStrip_ws_right hb, pyStrip_ws_left ha]
  obtain ⟨a2, b2, ha2, hb2, hdec2⟩ := pyStrip_decomp (specNormalize cs)
  have hdecomp : specNormalize cs = a2 ++ normalizeFB cs ++ b2 := by
    rw [htc]
    exact hdec2
  have hmemk : ('k' ∈ normalizeFB cs) ↔ ('k' ∈ specNormalize cs) := by
    rw [hdecomp]
    exact (mem_ws_pad (by decide) ha2 hb2).symm
  have hmemm : ('m' ∈ normalizeFB cs) ↔ ('m' ∈ specNormalize cs) := by
    rw [hdecomp]
    exact (mem_ws_pad (by decide) ha2 hb2).symm
  by_cases hk : 'k' ∈ specNormalize cs
  · have hk' : 'k' ∈ normalizeFB cs := hmemk.mpr hk
    simp only [parseFB, parse_spec]
    rw [if_pos hk', if_pos hk]
    have hfa2 : a2.filter (fun c => c != 'k') = a2 :=
      List.filter_eq_self.mpr
        (fun c hc => by simpa using (ws_char_facts (ha2 c hc)).2.2.1)
    have hfb2 : b2.filter (fun c => c != 'k') = b2 :=
      List.filter_eq_self.mpr
        (fun c hc => by simpa using (ws_char_facts (hb2 c hc)).2.2.1)
    have harg : parseFloat ((normalizeFB cs).filter (fun c => c != 'k')) =
        parseFloat ((specNormalize cs).filter (fun c => c != 'k')) := by
      unfold parseFloat
      rw [hdecomp, List.filter_append, List.filter_append, hfa2, hfb2,
        pyStrip_ws_right hb2, pyStrip_ws_left ha2]
    rw [harg]
  · by_cases hm : 'm' ∈ specNormalize cs
    · have hk' : 'k' ∉ normalizeFB cs := fun hc => hk (hmemk.mp hc)
      have hm' : 'm' ∈ normalizeFB cs := hmemm.mpr hm
      simp only [parseFB, parse_spec]
      rw [if_neg hk', if_neg hk, if_pos hm', if_pos hm]
      have hfa2 : a2.filter (fun c => c != 'm') = a2 :=
        List.filter_eq_self.mpr
          (fun c hc => by simpa using (ws_char_facts (ha2 c hc)).2.2.2)
      have hfb2 : b2.filter (fun c => c != 'm') = b2 :=
        List.filter_eq_self.mpr
          (fun c hc => by simpa using (ws_char_facts (hb2 c hc)).2.2.2)
      have harg : parseFloat ((normalizeFB cs).filter (fun c => c != 'm')) =
          parseFloat ((specNormalize cs).filter (fun c => c != 'm')) := by
        unfold parseFloat
        rw [hdecomp, List.filter_append, List.filter_append, hfa2, hfb2,
          pyStrip_ws_right hb2, pyStrip_ws_left ha2]
      rw [harg]
    · have hk' : 'k' ∉ normalizeFB cs := fun hc => hk (hmemk.mp hc)
      have hm' : 'm' ∉ normalizeFB cs := fun hc => hm (hmemm.mp hc)
      simp only [parseFB, parse_spec]
      rw [if_neg hk', if_neg hk, if_neg hm', if_neg hm]
      rw [hdecomp, firstDigitRun_ws_pad ha2 hb2]

/-- C1: the Number Normalizer behaves exactly as the specification's
algorithm describes — lowercase and strip, remove comma separators,
then branch on the `k`/`m` unit markers (float-parse and scale,
truncating toward zero) with a first-digit-run fallback
(`parse_spec`) — and satisfies the three quoted examples. -/
theorem parse_facebook_number_spec :
    (∀ s : String, parse_facebook_number s = parse_spec s.data) ∧
    parse_facebook_number ("1,234") = some 1234 ∧
    parse_facebook_number ("1.2k") = some 1200 ∧
    parse_facebook_number ("3M") = some 3000000 :=
  ⟨fun s => parseFB_eq_parse_spec s.data, by decide, by decide, by decide⟩
